import Mathlib

/-!
Shallow embedding of the block-streaming scheduling core of `src/server.h`
(Minetest-c55 derivative): the two priority-dedup queues (`BlockEmergeQueue`,
`BlockSendQueue`), the `RemoteClient` per-client state, and the spec-described
drain step of `BlockSendQueue::send` (whose body lives in `server.cpp`, outside
this repository slice).

Modelling conventions:
- `v3s16` positions are triples of integers (only equality on them is used);
- C `float` / `double` priorities and timestamps are modelled as `ℚ`:
  the code only compares them (`<`, `>`) and adds them
  (`m_timestamp + timeout`), so any linearly ordered field is faithful
  apart from NaN inputs, which are out of scope of the claims;
- the intrusive linked lists (`core::list` of owning pointers) are value
  lists, front = `begin()` = highest priority;
- each C++ member function becomes a pure function on the queue value; the
  early-`return` inside the dedup scan is modelled by an `Option` result
  (`none` = the call returned keeping the queue unchanged).
-/

/-- Integer 3-vector standing for `v3s16`; the queues use it only as an
identity key. -/
structure V3S16 where
  x : Int
  y : Int
  z : Int
deriving DecidableEq

/-- Embeds `struct QueuedBlockEmerge { v3s16 pos; float priority; }`. -/
structure QueuedBlockEmerge where
  pos : V3S16
  priority : ℚ
deriving DecidableEq

/-- The state of `BlockEmergeQueue` is its list `m_queue`, front first. -/
abbrev EmergeQueue := List QueuedBlockEmerge

/-- The dedup scan at the top of `BlockEmergeQueue::addBlock`
(server.h lines 112-128): walk the list; at the first entry with the same
`pos`, either return from the whole call (existing priority strictly
greater — modelled by `none`) or erase that entry and stop scanning
(modelled by `some` of the list with that entry removed). -/
def BlockEmergeQueue.dedupScan (pos : V3S16) (priority : ℚ) :
    EmergeQueue → Option EmergeQueue
  | [] => some []
  | q :: rest =>
    if q.pos = pos then
      if q.priority > priority then
        none
      else
        some rest
    else
      match BlockEmergeQueue.dedupScan pos priority rest with
      | none => none
      | some rest' => some (q :: rest')

/-- The non-empty branch of the insertion step of `BlockEmergeQueue::addBlock`
(server.h lines 139-147): insert the new entry before the first entry of
strictly lower priority and return.  NOTE (faithful to the source): when the
loop runs off the end — every entry has priority ≥ the new one — nothing is
inserted; the new entry is dropped (in the C++, leaked). -/
def BlockEmergeQueue.insertLoop (newq : QueuedBlockEmerge) :
    EmergeQueue → EmergeQueue
  | [] => []
  | q :: rest =>
    if q.priority < newq.priority then
      newq :: q :: rest
    else
      q :: BlockEmergeQueue.insertLoop newq rest

/-- The full insertion step (server.h lines 136-148): `push_back` when the
queue is empty, otherwise the insertion loop. -/
def BlockEmergeQueue.addToQueue (newq : QueuedBlockEmerge)
    (queue : EmergeQueue) : EmergeQueue :=
  if queue = [] then [newq] else BlockEmergeQueue.insertLoop newq queue

/-- `BlockEmergeQueue::addBlock(v3s16 pos, float priority)`
(server.h lines 106-149). -/
def BlockEmergeQueue.addBlock (queue : EmergeQueue) (pos : V3S16)
    (priority : ℚ) : EmergeQueue :=
  match BlockEmergeQueue.dedupScan pos priority queue with
  | none => queue
  | some queue' => BlockEmergeQueue.addToQueue ⟨pos, priority⟩ queue'

/-- `BlockEmergeQueue::pop()` (server.h lines 153-163): `NULL` on an empty
queue, otherwise the front entry together with the remaining queue. -/
def BlockEmergeQueue.pop : EmergeQueue → Option (QueuedBlockEmerge × EmergeQueue)
  | [] => none
  | q :: rest => some (q, rest)

/-- `BlockEmergeQueue::size()` (server.h lines 165-169). -/
def BlockEmergeQueue.size (queue : EmergeQueue) : Nat :=
  queue.length

/-- Run a sequence of `addBlock` calls on an initially empty
`BlockEmergeQueue` (the constructor makes the queue empty). -/
def BlockEmergeQueue.run (ops : List (V3S16 × ℚ)) : EmergeQueue :=
  ops.foldl (fun queue op => BlockEmergeQueue.addBlock queue op.1 op.2) []

/-- Embeds `struct QueuedBlockSend` (server.h lines 307-320). -/
structure QueuedBlockSend where
  peer_id : Int
  pos : V3S16
  priority : ℚ
  timeout_timestamp : ℚ
deriving DecidableEq

/-- The state of `BlockSendQueue`: its list `m_queue` (front first) and the
internal clock `m_timestamp` advanced by `step`. -/
structure BlockSendQueue where
  m_queue : List QueuedBlockSend
  m_timestamp : ℚ
deriving DecidableEq

/-- The dedup scan of `BlockSendQueue::addBlock` (server.h lines 343-359):
keyed by `(peer_id, pos)`; the call returns keeping the queue unchanged
(`none`) only when the existing entry has strictly greater priority AND
strictly greater timeout timestamp; otherwise that entry is erased. -/
def BlockSendQueue.dedupScan (peer_id : Int) (pos : V3S16)
    (priority timeout_timestamp : ℚ) :
    List QueuedBlockSend → Option (List QueuedBlockSend)
  | [] => some []
  | q :: rest =>
    if q.peer_id = peer_id ∧ q.pos = pos then
      if q.priority > priority ∧ q.timeout_timestamp > timeout_timestamp then
        none
      else
        some rest
    else
      match BlockSendQueue.dedupScan peer_id pos priority timeout_timestamp rest with
      | none => none
      | some rest' => some (q :: rest')

/-- The non-empty insertion loop of `BlockSendQueue::addBlock`
(server.h lines 372-380); same missing-tail-insert behaviour as the emerge
queue: a new entry not beating any queued priority is dropped. -/
def BlockSendQueue.insertLoop (newq : QueuedBlockSend) :
    List QueuedBlockSend → List QueuedBlockSend
  | [] => []
  | q :: rest =>
    if q.priority < newq.priority then
      newq :: q :: rest
    else
      q :: BlockSendQueue.insertLoop newq rest

/-- The full insertion step of `BlockSendQueue::addBlock`
(server.h lines 369-381). -/
def BlockSendQueue.addToQueue (newq : QueuedBlockSend)
    (queue : List QueuedBlockSend) : List QueuedBlockSend :=
  if queue = [] then [newq] else BlockSendQueue.insertLoop newq queue

/-- `BlockSendQueue::addBlock(int peer_id, v3s16 pos, float priority,
float timeout)` (server.h lines 339-382); the deadline is
`m_timestamp + timeout`, computed before the scan. -/
def BlockSendQueue.addBlock (st : BlockSendQueue) (peer_id : Int)
    (pos : V3S16) (priority timeout : ℚ) : BlockSendQueue :=
  let timeout_timestamp := st.m_timestamp + timeout
  match BlockSendQueue.dedupScan peer_id pos priority timeout_timestamp st.m_queue with
  | none => st
  | some queue' =>
    { m_queue := BlockSendQueue.addToQueue
        ⟨peer_id, pos, priority, timeout_timestamp⟩ queue'
      m_timestamp := st.m_timestamp }

/-- `BlockSendQueue::step(double dtime)` (server.h lines 384-387). -/
def BlockSendQueue.step (st : BlockSendQueue) (dtime : ℚ) : BlockSendQueue :=
  { m_queue := st.m_queue, m_timestamp := st.m_timestamp + dtime }

/-- `BlockSendQueue::size()` (server.h lines 389-392). -/
def BlockSendQueue.size (st : BlockSendQueue) : Nat :=
  st.m_queue.length

/-- One call on a `BlockSendQueue`: an `addBlock` or a clock `step`. -/
inductive SendOp where
  | add (peer_id : Int) (pos : V3S16) (priority timeout : ℚ)
  | step (dtime : ℚ)

/-- Apply one `SendOp`. -/
def BlockSendQueue.apply (st : BlockSendQueue) : SendOp → BlockSendQueue
  | SendOp.add peer_id pos priority timeout =>
      BlockSendQueue.addBlock st peer_id pos priority timeout
  | SendOp.step dtime => BlockSendQueue.step st dtime

/-- Run a sequence of calls on a fresh `BlockSendQueue` (empty queue; the
clock, uninitialised in the C++ constructor, is taken to start at 0). -/
def BlockSendQueue.run (ops : List SendOp) : BlockSendQueue :=
  ops.foldl BlockSendQueue.apply ⟨[], 0⟩

/-- Modelled from the spec: the body of `BlockSendQueue::send(Server &,
float)` is in `server.cpp`, which is not part of this repository slice; only
its declaration is at server.h line 396.  Per the spec (sections 4.5 and 8),
the drain step walks the queued transmissions in priority order and
"entries whose deadline has elapsed when reached are dropped without
sending"; the others are delivered via the transport `send`.  This models
the drain as the list of entries actually delivered. -/
def BlockSendQueue.sendDrainGo (now : ℚ) :
    List QueuedBlockSend → List QueuedBlockSend
  | [] => []
  | q :: rest =>
    if q.timeout_timestamp < now then
      BlockSendQueue.sendDrainGo now rest
    else
      q :: BlockSendQueue.sendDrainGo now rest

/-- The drain over the whole queue at the queue's current internal time. -/
def BlockSendQueue.sendDrain (st : BlockSendQueue) : List QueuedBlockSend :=
  BlockSendQueue.sendDrainGo st.m_timestamp st.m_queue

/-- The dedup key of a send-queue entry: `(peer_id, pos)`. -/
def sendKey (e : QueuedBlockSend) : Int × V3S16 :=
  (e.peer_id, e.pos)

/-- The first queued entry with the given `(peer_id, pos)` key, if any. -/
def BlockSendQueue.findEntry (peer_id : Int) (pos : V3S16)
    (l : List QueuedBlockSend) : Option QueuedBlockSend :=
  l.find? (fun q => decide (q.peer_id = peer_id ∧ q.pos = pos))

/-- Plain removal of the first entry with the given key (no priority or
deadline logic), used to state what the dedup scan computes. -/
def BlockSendQueue.eraseKey (peer_id : Int) (pos : V3S16) :
    List QueuedBlockSend → List QueuedBlockSend
  | [] => []
  | q :: rest =>
    if q.peer_id = peer_id ∧ q.pos = pos then rest
    else q :: BlockSendQueue.eraseKey peer_id pos rest

/-- Modelled from the spec: `SER_FMT_VER_INVALID` comes from
`serialization.h`, outside this repository slice; it is the sentinel for "no
valid serialization version" (255 in the engine).  The claims depend only on
the constructor storing this sentinel, not on its numeric value. -/
def SER_FMT_VER_INVALID : Nat := 255

/-- Embeds the state of `class RemoteClient` (server.h lines 404-483);
`core::map` members are modelled as lists of keys (the mapped values are
dummies in the source). -/
structure RemoteClient where
  peer_id : Nat
  serialization_version : Nat
  net_proto_version : Nat
  pending_serialization_version : Nat
  definitions_sent : Bool
  m_time_from_building : ℚ
  m_known_objects : List Nat
  m_blocks_sent : List V3S16
  m_nearest_unsent_d : Int
  m_last_center : V3S16
  m_nearest_unsent_reset_timer : ℚ
  m_nothing_to_send_counter : Nat
  m_nothing_to_send_pause_timer : ℚ
deriving DecidableEq

/-- The `RemoteClient()` constructor (server.h lines 421-433); the two
`core::map` members are default-constructed empty, `m_last_center` is a
default `v3s16`, zero. -/
def RemoteClient.init : RemoteClient :=
  { peer_id := 0
    serialization_version := SER_FMT_VER_INVALID
    net_proto_version := 0
    pending_serialization_version := SER_FMT_VER_INVALID
    definitions_sent := false
    m_time_from_building := 9999
    m_known_objects := []
    m_blocks_sent := []
    m_nearest_unsent_d := 0
    m_last_center := ⟨0, 0, 0⟩
    m_nearest_unsent_reset_timer := 0
    m_nothing_to_send_counter := 0
    m_nothing_to_send_pause_timer := 0 }

/-! Helper lemmas about the emerge queue: the dedup scan only removes
entries, removes every entry carrying the scanned key (given key-uniqueness),
and the insertion step preserves key-uniqueness and priority order. -/

/-- The list returned by a successful dedup scan is a sublist of the input. -/
theorem BlockEmergeQueue.dedupScan_sublist {pos : V3S16} {p : ℚ} :
    ∀ {l l' : EmergeQueue}, BlockEmergeQueue.dedupScan pos p l = some l' →
      List.Sublist l' l := by
  intro l
  induction l with
  | nil =>
    intro l' h
    simp only [BlockEmergeQueue.dedupScan, Option.some.injEq] at h
    subst h
    exact List.Sublist.refl []
  | cons q rest ih =>
    intro l' h
    simp only [BlockEmergeQueue.dedupScan] at h
    by_cases hpos : q.pos = pos
    · rw [if_pos hpos] at h
      by_cases hpri : q.priority > p
      · rw [if_pos hpri] at h
        exact absurd h (by simp)
      · rw [if_neg hpri] at h
        simp only [Option.some.injEq] at h
        subst h
        exact (List.Sublist.refl rest).cons q
    · rw [if_neg hpos] at h
      cases hds : BlockEmergeQueue.dedupScan pos p rest with
      | none =>
        rw [hds] at h
        exact absurd h (by simp)
      | some rest' =>
        rw [hds] at h
        simp only [Option.some.injEq] at h
        subst h
        exact (ih hds).cons₂ q

/-- After a successful dedup scan on a key-unique queue, the scanned key is
gone. -/
theorem BlockEmergeQueue.dedupScan_key_not_mem {pos : V3S16} {p : ℚ} :
    ∀ {l l' : EmergeQueue}, (l.map QueuedBlockEmerge.pos).Nodup →
      BlockEmergeQueue.dedupScan pos p l = some l' →
      pos ∉ l'.map QueuedBlockEmerge.pos := by
  intro l
  induction l with
  | nil =>
    intro l' _ h
    simp only [BlockEmergeQueue.dedupScan, Option.some.injEq] at h
    subst h
    simp
  | cons q rest ih =>
    intro l' hnd h
    simp only [List.map_cons, List.nodup_cons] at hnd
    obtain ⟨hqr, hrest⟩ := hnd
    simp only [BlockEmergeQueue.dedupScan] at h
    by_cases hpos : q.pos = pos
    · rw [if_pos hpos] at h
      by_cases hpri : q.priority > p
      · rw [if_pos hpri] at h
        exact absurd h (by simp)
      · rw [if_neg hpri] at h
        simp only [Option.some.injEq] at h
        subst h
        rw [← hpos]
        exact hqr
    · rw [if_neg hpos] at h
      cases hds : BlockEmergeQueue.dedupScan pos p rest with
      | none =>
        rw [hds] at h
        exact absurd h (by simp)
      | some rest' =>
        rw [hds] at h
        simp only [Option.some.injEq] at h
        subst h
        simp only [List.map_cons, List.mem_cons]
        rintro (hc | hc)
        · exact hpos hc.symm
        · exact ih hrest hds hc

/-- Every element of the insertion loop's output is the new entry or an input
element. -/
theorem BlockEmergeQueue.mem_insertLoop {newq a : QueuedBlockEmerge} :
    ∀ {l : EmergeQueue}, a ∈ BlockEmergeQueue.insertLoop newq l →
      a = newq ∨ a ∈ l := by
  intro l
  induction l with
  | nil =>
    intro h
    simp [BlockEmergeQueue.insertLoop] at h
  | cons q rest ih =>
    intro h
    simp only [BlockEmergeQueue.insertLoop] at h
    by_cases hlt : q.priority < newq.priority
    · rw [if_pos hlt] at h
      simp only [List.mem_cons] at h
      rcases h with h | h | h
      · exact Or.inl h
      · exact Or.inr (by simp [h])
      · exact Or.inr (by simp [h])
    · rw [if_neg hlt] at h
      simp only [List.mem_cons] at h
      rcases h with h | h
      · exact Or.inr (by simp [h])
      · rcases ih h with h' | h'
        · exact Or.inl h'
        · exact Or.inr (by simp [h'])

/-- The insertion loop preserves key-uniqueness when the new entry's key is
fresh. -/
theorem BlockEmergeQueue.insertLoop_nodup {newq : QueuedBlockEmerge} :
    ∀ {l : EmergeQueue}, (l.map QueuedBlockEmerge.pos).Nodup →
      newq.pos ∉ l.map QueuedBlockEmerge.pos →
      ((BlockEmergeQueue.insertLoop newq l).map QueuedBlockEmerge.pos).Nodup := by
  intro l
  induction l with
  | nil =>
    intro _ _
    simp [BlockEmergeQueue.insertLoop]
  | cons q rest ih =>
    intro hnd hfresh
    simp only [List.map_cons, List.nodup_cons] at hnd
    obtain ⟨hqr, hrest⟩ := hnd
    simp only [List.map_cons, List.mem_cons, not_or] at hfresh
    obtain ⟨hne, hfresh'⟩ := hfresh
    simp only [BlockEmergeQueue.insertLoop]
    by_cases hlt : q.priority < newq.priority
    · rw [if_pos hlt]
      simp only [List.map_cons, List.nodup_cons, List.mem_cons, not_or]
      exact ⟨⟨fun hc => hne hc, hfresh'⟩, hqr, hrest⟩
    · rw [if_neg hlt]
      simp only [List.map_cons, List.nodup_cons]
      constructor
      · intro hc
        rcases List.mem_map.1 hc with ⟨a, ha, hap⟩
        rcases BlockEmergeQueue.mem_insertLoop ha with h' | h'
        · exact hne (by rw [← hap, h'])
        · exact hqr (by rw [← hap]; exact List.mem_map_of_mem QueuedBlockEmerge.pos h')
      · exact ih hrest hfresh'

/-- The full insertion step preserves key-uniqueness for a fresh key. -/
theorem BlockEmergeQueue.addToQueue_nodup {newq : QueuedBlockEmerge}
    {l : EmergeQueue} (hnd : (l.map QueuedBlockEmerge.pos).Nodup)
    (hfresh : newq.pos ∉ l.map QueuedBlockEmerge.pos) :
    ((BlockEmergeQueue.addToQueue newq l).map QueuedBlockEmerge.pos).Nodup := by
  unfold BlockEmergeQueue.addToQueue
  by_cases hl : l = []
  · rw [if_pos hl]
    simp
  · rw [if_neg hl]
    exact BlockEmergeQueue.insertLoop_nodup hnd hfresh

/-- `addBlock` preserves key-uniqueness of the emerge queue. -/
theorem BlockEmergeQueue.addBlock_nodup {l : EmergeQueue} {pos : V3S16}
    {p : ℚ} (hnd : (l.map QueuedBlockEmerge.pos).Nodup) :
    ((BlockEmergeQueue.addBlock l pos p).map QueuedBlockEmerge.pos).Nodup := by
  unfold BlockEmergeQueue.addBlock
  cases hds : BlockEmergeQueue.dedupScan pos p l with
  | none => exact hnd
  | some l' =>
    have hsub := BlockEmergeQueue.dedupScan_sublist hds
    have hnd' : (l'.map QueuedBlockEmerge.pos).Nodup :=
      (hsub.map QueuedBlockEmerge.pos).nodup hnd
    exact BlockEmergeQueue.addToQueue_nodup hnd'
      (BlockEmergeQueue.dedupScan_key_not_mem hnd hds)

/-- Key-uniqueness of the emerge queue is preserved by any run of
`addBlock` calls. -/
theorem BlockEmergeQueue.foldl_nodup :
    ∀ (ops : List (V3S16 × ℚ)) (q : EmergeQueue),
      (q.map QueuedBlockEmerge.pos).Nodup →
      (((ops.foldl (fun queue op =>
          BlockEmergeQueue.addBlock queue op.1 op.2) q)).map
            QueuedBlockEmerge.pos).Nodup := by
  intro ops
  induction ops with
  | nil => intro q h; exact h
  | cons op rest ih =>
    intro q h
    exact ih _ (BlockEmergeQueue.addBlock_nodup h)

/-- The insertion loop preserves the highest-first priority sorting. -/
theorem BlockEmergeQueue.insertLoop_pairwise {newq : QueuedBlockEmerge} :
    ∀ {l : EmergeQueue},
      List.Pairwise (fun a b => b.priority ≤ a.priority) l →
      List.Pairwise (fun a b => b.priority ≤ a.priority)
        (BlockEmergeQueue.insertLoop newq l) := by
  intro l
  induction l with
  | nil =>
    intro _
    simp [BlockEmergeQueue.insertLoop]
  | cons q rest ih =>
    intro hp
    rcases List.pairwise_cons.1 hp with ⟨hq, hrest⟩
    simp only [BlockEmergeQueue.insertLoop]
    by_cases hlt : q.priority < newq.priority
    · rw [if_pos hlt]
      refine List.pairwise_cons.2 ⟨?_, hp⟩
      intro b hb
      rcases List.mem_cons.1 hb with hb | hb
      · exact le_of_lt (by rw [hb]; exact hlt)
      · exact le_trans (hq b hb) (le_of_lt hlt)
    · rw [if_neg hlt]
      refine List.pairwise_cons.2 ⟨?_, ih hrest⟩
      intro b hb
      rcases BlockEmergeQueue.mem_insertLoop hb with hb' | hb'
      · rw [hb']
        exact not_lt.1 hlt
      · exact hq b hb'

/-- The full insertion step preserves the highest-first sorting. -/
theorem BlockEmergeQueue.addToQueue_pairwise {newq : QueuedBlockEmerge}
    {l : EmergeQueue}
    (hp : List.Pairwise (fun a b => b.priority ≤ a.priority) l) :
    List.Pairwise (fun a b => b.priority ≤ a.priority)
      (BlockEmergeQueue.addToQueue newq l) := by
  unfold BlockEmergeQueue.addToQueue
  by_cases hl : l = []
  · rw [if_pos hl]
    simp
  · rw [if_neg hl]
    exact BlockEmergeQueue.insertLoop_pairwise hp

/-- `addBlock` preserves the highest-first sorting of the emerge queue. -/
theorem BlockEmergeQueue.addBlock_pairwise {l : EmergeQueue} {pos : V3S16}
    {p : ℚ}
    (hp : List.Pairwise (fun a b => b.priority ≤ a.priority) l) :
    List.Pairwise (fun a b => b.priority ≤ a.priority)
      (BlockEmergeQueue.addBlock l pos p) := by
  unfold BlockEmergeQueue.addBlock
  cases hds : BlockEmergeQueue.dedupScan pos p l with
  | none => exact hp
  | some l' =>
    exact BlockEmergeQueue.addToQueue_pairwise
      (hp.sublist (BlockEmergeQueue.dedupScan_sublist hds))

/-- The highest-first sorting is preserved by any run of `addBlock` calls. -/
theorem BlockEmergeQueue.foldl_pairwise :
    ∀ (ops : List (V3S16 × ℚ)) (q : EmergeQueue),
      List.Pairwise (fun a b => b.priority ≤ a.priority) q →
      List.Pairwise (fun a b => b.priority ≤ a.priority)
        (ops.foldl (fun queue op =>
          BlockEmergeQueue.addBlock queue op.1 op.2) q) := by
  intro ops
  induction ops with
  | nil => intro q h; exact h
  | cons op rest ih =>
    intro q h
    exact ih _ (BlockEmergeQueue.addBlock_pairwise h)

/-- `pop` succeeding means the queue was its returned entry followed by its
returned remainder. -/
theorem BlockEmergeQueue.pop_eq_some {q : EmergeQueue}
    {e : QueuedBlockEmerge} {q' : EmergeQueue}
    (h : BlockEmergeQueue.pop q = some (e, q')) : q = e :: q' := by
  cases q with
  | nil => simp [BlockEmergeQueue.pop] at h
  | cons a rest =>
    simp only [BlockEmergeQueue.pop, Option.some.injEq, Prod.mk.injEq] at h
    rw [h.1, h.2]

/-- The list returned by a successful send-queue dedup scan is a sublist of
the input. -/
theorem BlockSendQueue.sendScan_sublist {peer_id : Int} {pos : V3S16}
    {p tt : ℚ} :
    ∀ {l l' : List QueuedBlockSend},
      BlockSendQueue.dedupScan peer_id pos p tt l = some l' →
        List.Sublist l' l := by
  intro l
  induction l with
  | nil =>
    intro l' h
    simp only [BlockSendQueue.dedupScan, Option.some.injEq] at h
    subst h
    exact List.Sublist.refl []
  | cons q rest ih =>
    intro l' h
    simp only [BlockSendQueue.dedupScan] at h
    by_cases hk : q.peer_id = peer_id ∧ q.pos = pos
    · rw [if_pos hk] at h
      by_cases hpri : q.priority > p ∧ q.timeout_timestamp > tt
      · rw [if_pos hpri] at h
        exact absurd h (by simp)
      · rw [if_neg hpri] at h
        simp only [Option.some.injEq] at h
        subst h
        exact (List.Sublist.refl rest).cons q
    · rw [if_neg hk] at h
      cases hds : BlockSendQueue.dedupScan peer_id pos p tt rest with
      | none =>
        rw [hds] at h
        exact absurd h (by simp)
      | some rest' =>
        rw [hds] at h
        simp only [Option.some.injEq] at h
        subst h
        exact (ih hds).cons₂ q

/-- After a successful dedup scan on a key-unique send queue, the scanned
key is gone. -/
theorem BlockSendQueue.sendScan_key_not_mem {peer_id : Int} {pos : V3S16}
    {p tt : ℚ} :
    ∀ {l l' : List QueuedBlockSend}, (l.map sendKey).Nodup →
      BlockSendQueue.dedupScan peer_id pos p tt l = some l' →
      (peer_id, pos) ∉ l'.map sendKey := by
  intro l
  induction l with
  | nil =>
    intro l' _ h
    simp only [BlockSendQueue.dedupScan, Option.some.injEq] at h
    subst h
    simp
  | cons q rest ih =>
    intro l' hnd h
    simp only [List.map_cons, List.nodup_cons] at hnd
    obtain ⟨hqr, hrest⟩ := hnd
    simp only [BlockSendQueue.dedupScan] at h
    by_cases hk : q.peer_id = peer_id ∧ q.pos = pos
    · rw [if_pos hk] at h
      by_cases hpri : q.priority > p ∧ q.timeout_timestamp > tt
      · rw [if_pos hpri] at h
        exact absurd h (by simp)
      · rw [if_neg hpri] at h
        simp only [Option.some.injEq] at h
        subst h
        have : sendKey q = (peer_id, pos) := by
          simp [sendKey, hk.1, hk.2]
        rw [← this]
        exact hqr
    · rw [if_neg hk] at h
      cases hds : BlockSendQueue.dedupScan peer_id pos p tt rest with
      | none =>
        rw [hds] at h
        exact absurd h (by simp)
      | some rest' =>
        rw [hds] at h
        simp only [Option.some.injEq] at h
        subst h
        simp only [List.map_cons, List.mem_cons]
        rintro (hc | hc)
        · apply hk
          have h1 : q.peer_id = peer_id := congrArg Prod.fst hc.symm
          have h2 : q.pos = pos := congrArg Prod.snd hc.symm
          exact ⟨h1, h2⟩
        · exact ih hrest hds hc

/-- Every element of the send insertion loop's output is the new entry or an
input element. -/
theorem BlockSendQueue.mem_sendInsertLoop {newq a : QueuedBlockSend} :
    ∀ {l : List QueuedBlockSend},
      a ∈ BlockSendQueue.insertLoop newq l → a = newq ∨ a ∈ l := by
  intro l
  induction l with
  | nil =>
    intro h
    simp [BlockSendQueue.insertLoop] at h
  | cons q rest ih =>
    intro h
    simp only [BlockSendQueue.insertLoop] at h
    by_cases hlt : q.priority < newq.priority
    · rw [if_pos hlt] at h
      simp only [List.mem_cons] at h
      rcases h with h | h | h
      · exact Or.inl h
      · exact Or.inr (by simp [h])
      · exact Or.inr (by simp [h])
    · rw [if_neg hlt] at h
      simp only [List.mem_cons] at h
      rcases h with h | h
      · exact Or.inr (by simp [h])
      · rcases ih h with h' | h'
        · exact Or.inl h'
        · exact Or.inr (by simp [h'])

/-- The send insertion loop preserves key-uniqueness for a fresh key. -/
theorem BlockSendQueue.sendInsertLoop_nodup {newq : QueuedBlockSend} :
    ∀ {l : List QueuedBlockSend}, (l.map sendKey).Nodup →
      sendKey newq ∉ l.map sendKey →
      ((BlockSendQueue.insertLoop newq l).map sendKey).Nodup := by
  intro l
  induction l with
  | nil =>
    intro _ _
    simp [BlockSendQueue.insertLoop]
  | cons q rest ih =>
    intro hnd hfresh
    simp only [List.map_cons, List.nodup_cons] at hnd
    obtain ⟨hqr, hrest⟩ := hnd
    simp only [List.map_cons, List.mem_cons, not_or] at hfresh
    obtain ⟨hne, hfresh'⟩ := hfresh
    simp only [BlockSendQueue.insertLoop]
    by_cases hlt : q.priority < newq.priority
    · rw [if_pos hlt]
      simp only [List.map_cons, List.nodup_cons, List.mem_cons, not_or]
      exact ⟨⟨fun hc => hne hc, hfresh'⟩, hqr, hrest⟩
    · rw [if_neg hlt]
      simp only [List.map_cons, List.nodup_cons]
      constructor
      · intro hc
        rcases List.mem_map.1 hc with ⟨a, ha, hap⟩
        rcases BlockSendQueue.mem_sendInsertLoop ha with h' | h'
        · exact hne (by rw [← hap, h'])
        · exact hqr (by rw [← hap]; exact List.mem_map_of_mem sendKey h')
      · exact ih hrest hfresh'

/-- The full send insertion step preserves key-uniqueness for a fresh key. -/
theorem BlockSendQueue.sendAddToQueue_nodup {newq : QueuedBlockSend}
    {l : List QueuedBlockSend} (hnd : (l.map sendKey).Nodup)
    (hfresh : sendKey newq ∉ l.map sendKey) :
    ((BlockSendQueue.addToQueue newq l).map sendKey).Nodup := by
  unfold BlockSendQueue.addToQueue
  by_cases hl : l = []
  · rw [if_pos hl]
    simp
  · rw [if_neg hl]
    exact BlockSendQueue.sendInsertLoop_nodup hnd hfresh

/-- `BlockSendQueue::addBlock` preserves key-uniqueness. -/
theorem BlockSendQueue.sendAddBlock_nodup {st : BlockSendQueue} {peer_id : Int}
    {pos : V3S16} {p timeout : ℚ} (hnd : (st.m_queue.map sendKey).Nodup) :
    (((BlockSendQueue.addBlock st peer_id pos p timeout).m_queue).map
      sendKey).Nodup := by
  simp only [BlockSendQueue.addBlock]
  cases hds : BlockSendQueue.dedupScan peer_id pos p
      (st.m_timestamp + timeout) st.m_queue with
  | none => simpa [hds] using hnd
  | some l' =>
    have hsub := BlockSendQueue.sendScan_sublist hds
    have hnd' : (l'.map sendKey).Nodup := ((hsub.map sendKey).nodup) hnd
    have hfresh := BlockSendQueue.sendScan_key_not_mem hnd hds
    simp only [hds]
    exact BlockSendQueue.sendAddToQueue_nodup hnd' hfresh

/-- Key-uniqueness of the send queue is preserved by any run of `addBlock`
and `step` calls. -/
theorem BlockSendQueue.sendFoldl_nodup :
    ∀ (ops : List SendOp) (st : BlockSendQueue),
      (st.m_queue.map sendKey).Nodup →
      (((ops.foldl BlockSendQueue.apply st).m_queue).map sendKey).Nodup := by
  intro ops
  induction ops with
  | nil => intro st h; exact h
  | cons op rest ih =>
    intro st h
    cases op with
    | add peer_id pos priority timeout =>
      exact ih _ (BlockSendQueue.sendAddBlock_nodup h)
    | step dtime => exact ih _ h

/-- Claim C1: for every sequence of `addBlock` calls on either queue, after
each call the queue holds at most one entry per key — the position for
`BlockEmergeQueue`, the `(peer_id, pos)` pair for `BlockSendQueue`. -/
theorem c1_at_most_one_entry_per_key :
    (∀ ops : List (V3S16 × ℚ),
      ((BlockEmergeQueue.run ops).map QueuedBlockEmerge.pos).Nodup) ∧
    ∀ ops : List SendOp,
      (((BlockSendQueue.run ops).m_queue).map sendKey).Nodup := by
  constructor
  · intro ops
    exact BlockEmergeQueue.foldl_nodup ops [] (by simp)
  · intro ops
    exact BlockSendQueue.sendFoldl_nodup ops ⟨[], 0⟩ (by simp)

/-- Claim C2 is contradicted by the code at this failing input: starting
from an empty `BlockEmergeQueue`, `addBlock((0,0,0), 5)` then
`addBlock((1,0,0), 3)` — a key not in the queue — leaves the size at 1 and
no entry for `(1,0,0)`: the insertion loop of `addBlock` has no
tail-`push_back`, so an entry whose priority beats no queued entry is
silently dropped (and, in the C++, the freshly `new`-ed entry is leaked). -/
theorem c2_insertion_dropped_at_failing_input :
    BlockEmergeQueue.size
        (BlockEmergeQueue.run [(⟨0, 0, 0⟩, 5), (⟨1, 0, 0⟩, 3)]) = 1 ∧
      (⟨1, 0, 0⟩ : V3S16) ∉
        (BlockEmergeQueue.run [(⟨0, 0, 0⟩, 5), (⟨1, 0, 0⟩, 3)]).map
          QueuedBlockEmerge.pos := by
  decide

/-- Claim C3: on the generation queue, `addBlock(P, p1)` followed by
`addBlock(P, p2)` with `p2 < p1` makes the second call a no-op: the queue is
unchanged, its size stays 1, and the popped entry is `(P, p1)`. -/
theorem c3_lower_priority_duplicate_noop (P : V3S16) (p1 p2 : ℚ)
    (h : p2 < p1) :
    BlockEmergeQueue.addBlock (BlockEmergeQueue.addBlock [] P p1) P p2 =
        BlockEmergeQueue.addBlock [] P p1 ∧
      BlockEmergeQueue.size
        (BlockEmergeQueue.addBlock (BlockEmergeQueue.addBlock [] P p1) P p2) =
          1 ∧
      BlockEmergeQueue.pop
        (BlockEmergeQueue.addBlock (BlockEmergeQueue.addBlock [] P p1) P p2) =
          some (⟨P, p1⟩, []) := by
  have h1 : BlockEmergeQueue.addBlock [] P p1 = [⟨P, p1⟩] := by
    simp [BlockEmergeQueue.addBlock, BlockEmergeQueue.dedupScan,
      BlockEmergeQueue.addToQueue]
  have h2 : BlockEmergeQueue.addBlock [⟨P, p1⟩] P p2 = [⟨P, p1⟩] := by
    simp [BlockEmergeQueue.addBlock, BlockEmergeQueue.dedupScan, h]
  rw [h1, h2]
  exact ⟨rfl, rfl, rfl⟩

/-- Witness for claim C3 at the spec's scenario 1: position `(0,0,0)`,
priority 5 then priority 2. -/
theorem c3_witness :
    (2 : ℚ) < 5 ∧
      (BlockEmergeQueue.addBlock
            (BlockEmergeQueue.addBlock [] ⟨0, 0, 0⟩ 5) ⟨0, 0, 0⟩ 2 =
          BlockEmergeQueue.addBlock [] ⟨0, 0, 0⟩ 5 ∧
        BlockEmergeQueue.size
          (BlockEmergeQueue.addBlock
            (BlockEmergeQueue.addBlock [] ⟨0, 0, 0⟩ 5) ⟨0, 0, 0⟩ 2) = 1 ∧
        BlockEmergeQueue.pop
          (BlockEmergeQueue.addBlock
            (BlockEmergeQueue.addBlock [] ⟨0, 0, 0⟩ 5) ⟨0, 0, 0⟩ 2) =
          some (⟨⟨0, 0, 0⟩, 5⟩, [])) :=
  ⟨by norm_num,
    c3_lower_priority_duplicate_noop ⟨0, 0, 0⟩ 5 2 (by norm_num)⟩

/-- Claim C4: every queue reachable by `addBlock` calls is sorted with
priorities non-increasing from the front, so successive `pop` calls return
entries with numerically non-increasing priorities. -/
theorem c4_pops_nonincreasing (ops : List (V3S16 × ℚ)) :
    List.Pairwise (fun a b => b.priority ≤ a.priority)
        (BlockEmergeQueue.run ops) ∧
      ∀ (e1 : QueuedBlockEmerge) (q1 : EmergeQueue)
          (e2 : QueuedBlockEmerge) (q2 : EmergeQueue),
        BlockEmergeQueue.pop (BlockEmergeQueue.run ops) = some (e1, q1) →
        BlockEmergeQueue.pop q1 = some (e2, q2) →
        e2.priority ≤ e1.priority := by
  have hp : List.Pairwise (fun a b => b.priority ≤ a.priority)
      (BlockEmergeQueue.run ops) :=
    BlockEmergeQueue.foldl_pairwise ops [] (by simp)
  refine ⟨hp, ?_⟩
  intro e1 q1 e2 q2 h1 h2
  have hq : BlockEmergeQueue.run ops = e1 :: q1 :=
    BlockEmergeQueue.pop_eq_some h1
  have hq1 : q1 = e2 :: q2 := BlockEmergeQueue.pop_eq_some h2
  rw [hq] at hp
  rcases List.pairwise_cons.1 hp with ⟨hhead, _⟩
  exact hhead e2 (by rw [hq1]; simp)

/-- Witness for claim C4: after queueing priorities 3 and 7, the two
successive pops return priorities 7 then 3. -/
theorem c4_witness :
    BlockEmergeQueue.pop
        (BlockEmergeQueue.run [(⟨0, 0, 0⟩, 3), (⟨1, 0, 0⟩, 7)]) =
      some (⟨⟨1, 0, 0⟩, 7⟩, [⟨⟨0, 0, 0⟩, 3⟩]) ∧
    BlockEmergeQueue.pop [⟨⟨0, 0, 0⟩, 3⟩] = some (⟨⟨0, 0, 0⟩, 3⟩, []) ∧
    (QueuedBlockEmerge.mk ⟨0, 0, 0⟩ 3).priority ≤
      (QueuedBlockEmerge.mk ⟨1, 0, 0⟩ 7).priority :=
  ⟨by decide, by decide,
    (c4_pops_nonincreasing [(⟨0, 0, 0⟩, 3), (⟨1, 0, 0⟩, 7)]).2
      ⟨⟨1, 0, 0⟩, 7⟩ [⟨⟨0, 0, 0⟩, 3⟩] ⟨⟨0, 0, 0⟩, 3⟩ [] (by decide)
      (by decide)⟩

/-- Claim C5 is contradicted by the code at this failing input: on the
queue built by `addBlock((0,0,0), 5)` then `addBlock((1,0,0), 7)`, calling
`addBlock((0,0,0), 5)` again — same position, exactly equal priority — is
not a no-op: the existing entry is erased (the equal-priority case falls
into the branch the source comments as "In queue with a lower priority;
remove and re-add") and the re-insertion then drops it, leaving only the
`(1,0,0)` entry. -/
theorem c5_equal_priority_entry_lost :
    BlockEmergeQueue.run
        [(⟨0, 0, 0⟩, 5), (⟨1, 0, 0⟩, 7), (⟨0, 0, 0⟩, 5)] =
      [⟨⟨1, 0, 0⟩, 7⟩] := by
  decide

/-- Claim C7: `pop` never blocks: it returns `none` on the empty queue (the
queue unchanged), and on any reachable non-empty queue it removes and
returns an entry whose priority bounds every remaining entry, decreasing
`size` by one. -/
theorem c7_pop_never_blocks :
    BlockEmergeQueue.pop [] = none ∧
      ∀ (ops : List (V3S16 × ℚ)) (e : QueuedBlockEmerge) (q' : EmergeQueue),
        BlockEmergeQueue.pop (BlockEmergeQueue.run ops) = some (e, q') →
          (∀ x ∈ q', x.priority ≤ e.priority) ∧
            BlockEmergeQueue.size (BlockEmergeQueue.run ops) =
              BlockEmergeQueue.size q' + 1 := by
  refine ⟨rfl, ?_⟩
  intro ops e q' h
  have hp : List.Pairwise (fun a b => b.priority ≤ a.priority)
      (BlockEmergeQueue.run ops) :=
    BlockEmergeQueue.foldl_pairwise ops [] (by simp)
  have hq : BlockEmergeQueue.run ops = e :: q' :=
    BlockEmergeQueue.pop_eq_some h
  rw [hq] at hp
  rcases List.pairwise_cons.1 hp with ⟨hhead, _⟩
  refine ⟨hhead, ?_⟩
  rw [hq]
  simp [BlockEmergeQueue.size]

/-- Witness for claim C7: popping the singleton queue built by one
`addBlock` call. -/
theorem c7_witness :
    BlockEmergeQueue.pop (BlockEmergeQueue.run [(⟨0, 0, 0⟩, 5)]) =
        some (⟨⟨0, 0, 0⟩, 5⟩, []) ∧
      (∀ x ∈ ([] : EmergeQueue),
          x.priority ≤ (QueuedBlockEmerge.mk ⟨0, 0, 0⟩ 5).priority) ∧
        BlockEmergeQueue.size (BlockEmergeQueue.run [(⟨0, 0, 0⟩, 5)]) =
          BlockEmergeQueue.size ([] : EmergeQueue) + 1 :=
  ⟨by decide,
    c7_pop_never_blocks.2 [(⟨0, 0, 0⟩, 5)] ⟨⟨0, 0, 0⟩, 5⟩ [] (by decide)⟩

/-- When the key is queued, the dedup scan keeps the queue exactly when the
found entry's priority and deadline are both strictly greater than the
incoming ones, and otherwise erases that entry. -/
theorem BlockSendQueue.dedupScan_of_found {peer_id : Int} {pos : V3S16}
    {p tt : ℚ} {e : QueuedBlockSend} :
    ∀ {l : List QueuedBlockSend},
      BlockSendQueue.findEntry peer_id pos l = some e →
      BlockSendQueue.dedupScan peer_id pos p tt l =
        if e.priority > p ∧ e.timeout_timestamp > tt then none
        else some (BlockSendQueue.eraseKey peer_id pos l) := by
  intro l
  induction l with
  | nil =>
    intro h
    simp [BlockSendQueue.findEntry, List.find?] at h
  | cons q rest ih =>
    intro h
    by_cases hk : q.peer_id = peer_id ∧ q.pos = pos
    · have hfq : BlockSendQueue.findEntry peer_id pos (q :: rest) = some q := by
        unfold BlockSendQueue.findEntry
        exact List.find?_cons_of_pos rest (by simp [hk])
      have heq : q = e := by
        have := hfq.symm.trans h
        simpa using this
      subst heq
      simp only [BlockSendQueue.dedupScan, BlockSendQueue.eraseKey,
        if_pos hk]
    · have hfr : BlockSendQueue.findEntry peer_id pos rest = some e := by
        unfold BlockSendQueue.findEntry at h ⊢
        rwa [List.find?_cons_of_neg rest (by simp [hk])] at h
      simp only [BlockSendQueue.dedupScan, BlockSendQueue.eraseKey,
        if_neg hk]
      rw [ih hfr]
      by_cases hc : e.priority > p ∧ e.timeout_timestamp > tt
      · rw [if_pos hc, if_pos hc]
      · rw [if_neg hc, if_neg hc]

/-- Claim C6 holds only in amended form: for a `(peer_id, pos)` key already
queued, `addBlock` is a no-op exactly when the existing entry's priority and
deadline are both STRICTLY greater than the incoming ones; in every other
case the old entry is removed and the incoming one goes through the priority
insertion step (which places it before the first entry of strictly lower
priority, appends it when the remaining queue is empty, and drops it
otherwise). -/
theorem c6_amended_upsert (st : BlockSendQueue) (peer_id : Int)
    (pos : V3S16) (priority timeout : ℚ) (e : QueuedBlockSend)
    (hfind : BlockSendQueue.findEntry peer_id pos st.m_queue = some e) :
    BlockSendQueue.addBlock st peer_id pos priority timeout =
      if e.priority > priority ∧
          e.timeout_timestamp > st.m_timestamp + timeout then st
      else
        { m_queue := BlockSendQueue.addToQueue
            ⟨peer_id, pos, priority, st.m_timestamp + timeout⟩
            (BlockSendQueue.eraseKey peer_id pos st.m_queue)
          m_timestamp := st.m_timestamp } := by
  simp only [BlockSendQueue.addBlock]
  rw [BlockSendQueue.dedupScan_of_found hfind]
  by_cases hc : e.priority > priority ∧
      e.timeout_timestamp > st.m_timestamp + timeout
  · rw [if_pos hc, if_pos hc]
  · rw [if_neg hc, if_neg hc]

/-- Witness for the amended claim C6: on the queue holding the single entry
`(peer 7, (0,0,0), priority 5, deadline 12)`, a duplicate `addBlock` with
equal priority 5 and timeout 10 is not kept out: the old entry is erased and
the incoming one re-inserted, so the stored deadline becomes 10. -/
theorem c6_witness :
    BlockSendQueue.addBlock ⟨[⟨7, ⟨0, 0, 0⟩, 5, 12⟩], 0⟩ 7 ⟨0, 0, 0⟩ 5 10 =
      { m_queue := BlockSendQueue.addToQueue ⟨7, ⟨0, 0, 0⟩, 5, 0 + 10⟩
          (BlockSendQueue.eraseKey 7 ⟨0, 0, 0⟩ [⟨7, ⟨0, 0, 0⟩, 5, 12⟩])
        m_timestamp := 0 } := by
  rw [c6_amended_upsert ⟨[⟨7, ⟨0, 0, 0⟩, 5, 12⟩], 0⟩ 7 ⟨0, 0, 0⟩ 5 10
    ⟨7, ⟨0, 0, 0⟩, 5, 12⟩ (by decide)]
  rw [if_neg (by norm_num)]

/-- Counterexample to claim C6 as stated, refuting both of its parts at
concrete inputs.  First, its no-op condition: with the entry
`(peer 7, (0,0,0), priority 5, deadline 12)` queued, the incoming call
`addBlock(7, (0,0,0), 5, 10)` has priority and deadline both no worse on the
existing side (5 ≥ 5 and 12 ≥ 10), so the claim requires a no-op; the code
instead replaces the entry, shortening the stored deadline to 10.  Second,
its replacement guarantee: with `[(peer 8, (1,0,0), 7, 20),
(peer 7, (0,0,0), 5, 12)]` queued, the incoming call
`addBlock(7, (0,0,0), 6, 12)` strictly improves the priority (6 > 5), so
the claim requires the old entry to be removed and replaced by the incoming
one; the code removes the old entry and then drops the incoming one (the
remaining entry's priority 7 is not strictly lower than 6, and the
insertion loop has no tail append), leaving no entry at all for key
`(7, (0,0,0))` in the resulting queue. -/
theorem c6_counterexample :
    ((5 : ℚ) ≤ 5 ∧ (10 : ℚ) ≤ 12 ∧
      BlockSendQueue.addBlock ⟨[⟨7, ⟨0, 0, 0⟩, 5, 12⟩], 0⟩ 7 ⟨0, 0, 0⟩ 5 10 =
        ⟨[⟨7, ⟨0, 0, 0⟩, 5, 10⟩], 0⟩ ∧
      (⟨[⟨7, ⟨0, 0, 0⟩, 5, 10⟩], 0⟩ : BlockSendQueue) ≠
        ⟨[⟨7, ⟨0, 0, 0⟩, 5, 12⟩], 0⟩) ∧
    (5 : ℚ) < 6 ∧
      BlockSendQueue.addBlock
          ⟨[⟨8, ⟨1, 0, 0⟩, 7, 20⟩, ⟨7, ⟨0, 0, 0⟩, 5, 12⟩], 0⟩
          7 ⟨0, 0, 0⟩ 6 12 =
        ⟨[⟨8, ⟨1, 0, 0⟩, 7, 20⟩], 0⟩ := by
  refine ⟨⟨by norm_num, by norm_num, ?_, by decide⟩, by norm_num, ?_⟩
  · norm_num [BlockSendQueue.addBlock, BlockSendQueue.dedupScan,
      BlockSendQueue.addToQueue, BlockSendQueue.insertLoop]
  · norm_num [BlockSendQueue.addBlock, BlockSendQueue.dedupScan,
      BlockSendQueue.addToQueue, BlockSendQueue.insertLoop]

/-- Every entry the spec-modelled drain delivers has a deadline at or after
the drain's time. -/
theorem BlockSendQueue.mem_sendDrainGo {now : ℚ} {e : QueuedBlockSend} :
    ∀ {l : List QueuedBlockSend}, e ∈ BlockSendQueue.sendDrainGo now l →
      ¬ e.timeout_timestamp < now := by
  intro l
  induction l with
  | nil =>
    intro h
    simp [BlockSendQueue.sendDrainGo] at h
  | cons q rest ih =>
    intro h
    simp only [BlockSendQueue.sendDrainGo] at h
    by_cases hstale : q.timeout_timestamp < now
    · rw [if_pos hstale] at h
      exact ih h
    · rw [if_neg hstale] at h
      rcases List.mem_cons.1 h with h' | h'
      · rw [h']
        exact hstale
      · exact ih h'

/-- Claim C8: the drain step never delivers an entry whose
`timeout_timestamp` is earlier than the queue's current internal time: such
entries are dropped without being passed to `send`. -/
theorem c8_elapsed_deadline_never_sent (st : BlockSendQueue)
    (e : QueuedBlockSend) (h : e ∈ BlockSendQueue.sendDrain st) :
    ¬ e.timeout_timestamp < st.m_timestamp := by
  unfold BlockSendQueue.sendDrain at h
  exact BlockSendQueue.mem_sendDrainGo h

/-- Witness for claim C8: at internal time 3, the entry with deadline 10 is
delivered and indeed not yet elapsed. -/
theorem c8_witness :
    QueuedBlockSend.mk 1 ⟨0, 0, 0⟩ 5 10 ∈
        BlockSendQueue.sendDrain ⟨[⟨1, ⟨0, 0, 0⟩, 5, 10⟩], 3⟩ ∧
      ¬ (QueuedBlockSend.mk 1 ⟨0, 0, 0⟩ 5 10).timeout_timestamp <
        (BlockSendQueue.mk [⟨1, ⟨0, 0, 0⟩, 5, 10⟩] 3).m_timestamp :=
  ⟨by decide,
    c8_elapsed_deadline_never_sent ⟨[⟨1, ⟨0, 0, 0⟩, 5, 10⟩], 3⟩
      ⟨1, ⟨0, 0, 0⟩, 5, 10⟩ (by decide)⟩

/-- Claim C10: a freshly constructed `RemoteClient` knows nothing: empty
sent-blocks set (so no position is marked sent), empty known-objects set,
`peer_id` 0, both serialization versions the invalid sentinel, and the
nearest-unsent distance cursor at 0. -/
theorem c10_fresh_remote_client :
    RemoteClient.init.peer_id = 0 ∧
      RemoteClient.init.serialization_version = SER_FMT_VER_INVALID ∧
      RemoteClient.init.pending_serialization_version =
        SER_FMT_VER_INVALID ∧
      RemoteClient.init.m_blocks_sent = [] ∧
      RemoteClient.init.m_known_objects = [] ∧
      (∀ p : V3S16, p ∉ RemoteClient.init.m_blocks_sent) ∧
      RemoteClient.init.m_nearest_unsent_d = 0 := by
  refine ⟨rfl, rfl, rfl, rfl, rfl, ?_, rfl⟩
  intro p
  simp [RemoteClient.init]
